import Mathlib

/-!
Verification of the turingroulette game server (cmd/server/main.go).

The Go code is shallowly embedded: Go structs become Lean structures,
float64 arithmetic is modelled over ℚ, Go `int(x)` conversion is modelled
as truncation toward zero, Go maps keyed by model name are modelled as
association lists, and Go strings are modelled as lists of characters.
-/

/-- Embeds Go struct `GameResult` (main.go). `Timestamp` is dropped as no
operation reads it. -/
structure GameResult where
  PlayerWins : Bool
  CorrectCount : ℕ
  TotalModels : ℕ
  Difficulty : String
  Duration : ℚ
  RoundsPlayed : ℕ
deriving Repr, DecidableEq

/-- The `difficultyMultiplier` map literal in `calculateScore`: a Go map
lookup returns the zero value 0.0 for a missing key. -/
def difficultyMultiplier (d : String) : ℚ :=
  if d = "easy" then 1 else if d = "medium" then 3/2 else if d = "hard" then 2 else 0

/-- Go `int(x)` on a float64 truncates toward zero. -/
def truncToInt (q : ℚ) : ℤ :=
  if 0 ≤ q then ⌊q⌋ else -⌊-q⌋

/-- The `multiplier` local of `calculateScore`: map lookup, then the zero
value (missing key) is replaced by 1.0. -/
def effMultiplier (d : String) : ℚ :=
  let m := difficultyMultiplier d
  if m = 0 then 1 else m

/-- The `timeBonus` local of `calculateScore`: 50, decaying past 60 s. -/
def codeTimeBonus (duration : ℚ) : ℚ :=
  if duration > 60 then 50 * (60 / duration) else 50

/-- Embeds `calculateScore` (main.go lines 332-362). -/
def calculateScore (result : GameResult) : ℤ :=
  if !result.PlayerWins then 0
  else
    let baseScore : ℚ := 100
    let multiplier := effMultiplier result.Difficulty
    let timeBonus := codeTimeBonus result.Duration
    let stumpBonus : ℚ := ((result.TotalModels : ℚ) - (result.CorrectCount : ℚ)) * 20
    truncToInt (baseScore * multiplier + timeBonus + stumpBonus)

/-- Written from the spec wording of §4.3 (ScoreCalculator), for comparison
with `calculateScore`: multiplier defaults directly to 1 for unrecognized
tags, timeBonus is 50 when duration ≤ 60 else decaying, and the result is
the floor of the sum. -/
def specMultiplier (d : String) : ℚ :=
  if d = "easy" then 1 else if d = "medium" then 3/2 else if d = "hard" then 2 else 1

/-- Written from the spec wording of §4.3: timeBonus is 50 when duration is
at most 60 s, else 50 × (60/duration). -/
def specTimeBonus (duration : ℚ) : ℚ :=
  if duration ≤ 60 then 50 else 50 * (60 / duration)

/-- Written from the spec wording of §4.3: the whole score formula. -/
def specScore (r : GameResult) : ℤ :=
  if r.PlayerWins then
    ⌊(100 : ℚ) * specMultiplier r.Difficulty + specTimeBonus r.Duration +
      20 * ((r.TotalModels : ℚ) - (r.CorrectCount : ℚ))⌋
  else 0

/-- The worked example from the spec: hard, 45 s, 1 of 3 correct, player wins. -/
def exampleHardResult : GameResult :=
  { PlayerWins := true, CorrectCount := 1, TotalModels := 3,
    Difficulty := "hard", Duration := 45, RoundsPlayed := 2 }

/-- The game-outcome flags computed in `playRound` (main.go lines 519-522). -/
structure Outcome where
  correctCount : ℕ
  totalModels : ℕ
  allCorrect : Bool
  someCorrect : Bool
  cluesExhausted : Bool
  playerWins : Bool
deriving Repr, DecidableEq

/-- Embeds the outcome computation of `playRound` (main.go lines 519-538):
`allCorrect := correctCount == totalModels`, `someCorrect := correctCount > 0
&& correctCount < totalModels`, `cluesExhausted := currentRound >= len(clues)`,
and on game over `PlayerWins := someCorrect && !allCorrect`. -/
def decideOutcome (correctCount totalModels currentRound numClues : ℕ) : Outcome :=
  let allCorrect : Bool := decide (correctCount = totalModels)
  let someCorrect : Bool := decide (0 < correctCount) && decide (correctCount < totalModels)
  let cluesExhausted : Bool := decide (numClues ≤ currentRound)
  { correctCount := correctCount
    totalModels := totalModels
    allCorrect := allCorrect
    someCorrect := someCorrect
    cluesExhausted := cluesExhausted
    playerWins := someCorrect && !allCorrect }

/-- Embeds the control flow of `playRound` (main.go lines 487-584): evaluate
the current round (the fan-out/barrier is abstracted as `evalRound`), then
stop when every solver is correct or the clue list is exhausted, otherwise
increment the round index and recurse.  Returns the number of rounds run. -/
def playRoundLoop {M : Type} (evalRound : ℕ → M → M) (allCorrectF : M → Bool)
    (numClues : ℕ) : ℕ → M → ℕ
  | currentRound, m =>
    let m2 := evalRound currentRound m
    if allCorrectF m2 || decide (numClues ≤ currentRound) then 1
    else 1 + playRoundLoop evalRound allCorrectF numClues (currentRound + 1) m2
termination_by currentRound _ => numClues - currentRound
decreasing_by
  simp only [Bool.or_eq_true, decide_eq_true_eq, not_or] at *
  omega

/-- Embeds Go struct `Stats` (main.go); `ByDifficulty` is an association list
standing for the Go map. -/
structure Stats where
  TotalGames : ℕ
  Wins : ℕ
  Losses : ℕ
  WinRate : ℚ
  ByDifficulty : List (String × ℕ)
  AverageDuration : ℚ
  TotalDuration : ℚ
deriving Repr, DecidableEq

/-- The zero `Stats` record built by `loadStats` when no file exists. -/
def initStats : Stats :=
  { TotalGames := 0, Wins := 0, Losses := 0, WinRate := 0,
    ByDifficulty := [], AverageDuration := 0, TotalDuration := 0 }

/-- The `stats.ByDifficulty[result.Difficulty]++` map increment. -/
def bumpDifficulty (m : List (String × ℕ)) (d : String) : List (String × ℕ) :=
  match m.lookup d with
  | some n => m.map (fun p => if p.1 = d then (p.1, n + 1) else p)
  | none => m ++ [(d, 1)]

/-- Embeds `updateStats` (main.go lines 364-388). -/
def updateStats (stats : Stats) (result : GameResult) : Stats :=
  let s1 : Stats := { stats with TotalGames := stats.TotalGames + 1 }
  let s2 : Stats :=
    if result.PlayerWins then { s1 with Wins := s1.Wins + 1 }
    else { s1 with Losses := s1.Losses + 1 }
  let s3 : Stats :=
    if 0 < s2.TotalGames then
      { s2 with WinRate := (s2.Wins : ℚ) / (s2.TotalGames : ℚ) * 100 }
    else s2
  let s4 : Stats := { s3 with ByDifficulty := bumpDifficulty s3.ByDifficulty result.Difficulty }
  let s5 : Stats := { s4 with TotalDuration := s4.TotalDuration + result.Duration }
  { s5 with AverageDuration := s5.TotalDuration / (s5.TotalGames : ℚ) }

/-- Go strings are modelled as lists of characters. -/
abbrev Str := List Char

/-- Go `strings.ToLower` restricted to the ASCII inputs of the claims. -/
def toLowerStr (s : Str) : Str := s.map Char.toLower

/-- Go `strings.TrimSpace`. -/
def trimStr (s : Str) : Str :=
  ((s.dropWhile Char.isWhitespace).reverse.dropWhile Char.isWhitespace).reverse

/-- Go `strings.TrimPrefix`: strips one occurrence when present. -/
def trimPrefixStr (s p : Str) : Str :=
  if p <+: s then s.drop p.length else s

/-- Go `strings.TrimSuffix`: strips one occurrence when present. -/
def trimSuffixStr (s p : Str) : Str :=
  if p <:+ s then s.take (s.length - p.length) else s

/-- Go `strings.Contains s sub`. -/
def containsStr (s sub : Str) : Bool := decide (sub <:+: s)

/-- ASCII apostrophe, written by code point. -/
def apos : Char := Char.ofNat 39

/-- The literal `"it's "` from `checkAnswer`. -/
def itsPhrase : Str := ['i', 't', apos, 's', ' ']

/-- The literal `"based on the clues, it's "` from `checkAnswer`. -/
def basedPhrase : Str := "based on the clues, it".data ++ [apos] ++ "s ".data

/-- Embeds `checkAnswer` (main.go lines 965-978). -/
def checkAnswer (guess correctAnswer : Str) : Bool :=
  let g0 := trimStr (toLowerStr guess)
  let answer := trimStr (toLowerStr correctAnswer)
  let g1 := trimPrefixStr g0 "the answer is ".data
  let g2 := trimPrefixStr g1 "i believe the answer is ".data
  let g3 := trimPrefixStr g2 basedPhrase
  let g4 := trimPrefixStr g3 itsPhrase
  let g5 := trimPrefixStr g4 "a ".data
  let g6 := trimPrefixStr g5 "an ".data
  let g7 := trimSuffixStr g6 "?".data
  let g8 := trimSuffixStr g7 ".".data
  containsStr g8 answer || containsStr answer g8 || decide (g8 = answer)

/-- Written from the spec wording of §4.2 (AnswerMatcher): the candidate
normalization pipeline, for comparison with `checkAnswer`. -/
def specNormalize (candidate : Str) : Str :=
  let c0 := trimStr (toLowerStr candidate)
  let c1 := trimPrefixStr c0 "the answer is ".data
  let c2 := trimPrefixStr c1 "i believe the answer is ".data
  let c3 := trimPrefixStr c2 basedPhrase
  let c4 := trimPrefixStr c3 itsPhrase
  let c5 := trimPrefixStr c4 "a ".data
  let c6 := trimPrefixStr c5 "an ".data
  trimSuffixStr (trimSuffixStr c6 "?".data) ".".data

/-- Written from the spec wording of §4.2: match succeeds iff the normalized
candidate equals the normalized canonical, or either is a substring of the
other. -/
def matchesSpec (candidate canonical : Str) : Bool :=
  let c := specNormalize candidate
  let a := trimStr (toLowerStr canonical)
  decide (c = a) || decide (c <:+: a) || decide (a <:+: c)

/-- Embeds Go struct `ModelState` (main.go lines 49-57); guesses are `Str`. -/
structure ModelState where
  Correct : Bool
  Guess : Str
  Round : ℕ
  AllGuesses : List Str
  GuessResults : List Bool
  ResponseTime : ℚ
  ResponseTimes : List ℚ
deriving Repr, DecidableEq

/-- The Go zero value of `ModelState`. -/
def emptyModelState : ModelState :=
  { Correct := false, Guess := [], Round := 0, AllGuesses := [],
    GuessResults := [], ResponseTime := 0, ResponseTimes := [] }

/-- Embeds Go struct `ModelConfig` (main.go lines 24-30). -/
structure ModelConfig where
  Name : String
  Provider : String
  Model : String
  APIKey : String
  Endpoint : String
deriving Repr, DecidableEq

/-- Embeds the state-update half of `streamModelResponse` (main.go lines
632-656): `streamResult` is `none` on a transport/timeout error (Go sets
`response = ""` and `isCorrect = false`), `some r` on success (Go runs
`checkAnswer`).  The three history appends are unconditional in the code. -/
def applyAttempt (st : ModelState) (currentRound : ℕ) (streamResult : Option Str)
    (responseTime : ℚ) (answer : Str) : ModelState :=
  let response : Str :=
    match streamResult with
    | none => []
    | some r => r
  let isCorrect : Bool :=
    match streamResult with
    | none => false
    | some r => checkAnswer r answer
  { st with
    Guess := response
    Correct := isCorrect
    ResponseTime := responseTime
    Round := if isCorrect then currentRound + 1 else st.Round
    AllGuesses := st.AllGuesses ++ [response]
    GuessResults := st.GuessResults ++ [isCorrect]
    ResponseTimes := st.ResponseTimes ++ [responseTime] }

/-- Embeds the state-map construction in `handleWebSocket` (main.go lines
461-477): one zero `ModelState` per configured model, keyed by name. -/
def initModelStates (models : List ModelConfig) : List (String × ModelState) :=
  models.map (fun m => (m.Name, emptyModelState))

/-- A Go map read `game.ModelStates[name]`: zero value when absent. -/
def lookupState (states : List (String × ModelState)) (name : String) : ModelState :=
  (states.lookup name).getD emptyModelState

/-- A Go map write `game.ModelStates[name] = st`: replace when present,
append when absent. -/
def setState (states : List (String × ModelState)) (name : String)
    (st : ModelState) : List (String × ModelState) :=
  if states.any (fun p => p.1 == name) then
    states.map (fun p => if p.1 = name then (name, st) else p)
  else states ++ [(name, st)]

/-- Embeds the dispatch filter of `playRound` (main.go lines 494-508): one
worker per configured model whose correctness flag is still false. -/
def dispatchList (models : List ModelConfig)
    (states : List (String × ModelState)) : List ModelConfig :=
  models.filter (fun m => !(lookupState states m.Name).Correct)

/-- Embeds the `correctCount` tally of `playRound` (main.go lines 511-516). -/
def countCorrect (states : List (String × ModelState)) : ℕ :=
  (states.filter (fun p => p.2.Correct)).length

/-- Embeds Go struct `LeaderboardEntry` (main.go lines 86-95); the timestamp
is modelled as an integer. -/
structure LeaderboardEntry where
  Riddle : String
  Difficulty : String
  PlayerWon : Bool
  CorrectCount : ℕ
  TotalModels : ℕ
  Duration : ℚ
  Timestamp : ℤ
  Score : ℤ
deriving Repr, DecidableEq

instance : Inhabited LeaderboardEntry :=
  ⟨{ Riddle := "", Difficulty := "", PlayerWon := false, CorrectCount := 0,
     TotalModels := 0, Duration := 0, Timestamp := 0, Score := 0 }⟩

/-- Score of the entry at an index, 0 out of range; proof-layer accessor. -/
def sc (l : List LeaderboardEntry) (i : ℕ) : ℤ :=
  match l[i]? with
  | some e => e.Score
  | none => 0

/-- Swap the entries at two indices; identity when either is out of range. -/
def swapEntries (l : List LeaderboardEntry) (i j : ℕ) : List LeaderboardEntry :=
  match l[i]?, l[j]? with
  | some vi, some vj => (l.set i vj).set j vi
  | _, _ => l

/-- One comparison of the leaderboard sorting loop (main.go lines 408-414):
`if leaderboard[j].Score > leaderboard[i].Score` swap. -/
def innerStep (l : List LeaderboardEntry) (i j : ℕ) : List LeaderboardEntry :=
  if sc l i < sc l j then swapEntries l i j else l

/-- The inner `for j := i+1; j < len; j++` loop, over an explicit index list. -/
def innerLoop (i : ℕ) : List LeaderboardEntry → List ℕ → List LeaderboardEntry
  | l, [] => l
  | l, j :: js => innerLoop i (innerStep l i j) js

/-- The outer `for i := 0; i < len-1; i++` loop. -/
def outerLoop (n : ℕ) : List LeaderboardEntry → List ℕ → List LeaderboardEntry
  | l, [] => l
  | l, i :: is => outerLoop n (innerLoop i l (List.range' (i + 1) (n - (i + 1)))) is

/-- The full exchange sort of `addToLeaderboard` (main.go lines 407-414). -/
def sortLeaderboard (l : List LeaderboardEntry) : List LeaderboardEntry :=
  outerLoop l.length l (List.range (l.length - 1))

/-- Embeds `addToLeaderboard` (main.go lines 390-422) at the level of the
already-built entry: append, exchange-sort descending by score, keep top 100. -/
def addToLeaderboard (lb : List LeaderboardEntry) (entry : LeaderboardEntry) :
    List LeaderboardEntry :=
  (sortLeaderboard (lb ++ [entry])).take 100

/-- Descending sortedness by score of a leaderboard list, by indices. -/
def SortedDesc (l : List LeaderboardEntry) : Prop :=
  ∀ p q, p < q → q < l.length → sc l q ≤ sc l p

lemma effMultiplier_eq_specMultiplier (d : String) : effMultiplier d = specMultiplier d := by
  unfold effMultiplier difficultyMultiplier specMultiplier
  split_ifs <;> norm_num at *

lemma one_le_specMultiplier (d : String) : (1 : ℚ) ≤ specMultiplier d := by
  unfold specMultiplier
  split_ifs <;> norm_num

lemma codeTimeBonus_eq_specTimeBonus (dur : ℚ) : codeTimeBonus dur = specTimeBonus dur := by
  unfold codeTimeBonus specTimeBonus
  rcases le_or_lt dur 60 with h | h
  · rw [if_neg (not_lt.2 h), if_pos h]
  · rw [if_pos h, if_neg (not_le.2 h)]

lemma specTimeBonus_nonneg {dur : ℚ} (hd : 0 ≤ dur) : 0 ≤ specTimeBonus dur := by
  unfold specTimeBonus
  split_ifs with h
  · norm_num
  · have hpos : 0 < dur := by linarith [not_le.1 h]
    positivity

lemma truncToInt_of_nonneg {q : ℚ} (h : 0 ≤ q) : truncToInt q = ⌊q⌋ := if_pos h

/-- Claim C1: for every game outcome with a nonnegative duration and at most
`totalSolvers` correct solvers, the computed score is 0 without a player win
and otherwise the floor of 100 × multiplier + timeBonus + stumpBonus exactly
as the spec states it; in particular the hard/45 s/1-of-3 win scores 290. -/
theorem calculateScore_meets_spec :
    (∀ r : GameResult, 0 ≤ r.Duration → r.CorrectCount ≤ r.TotalModels →
      calculateScore r = specScore r) ∧
    calculateScore exampleHardResult = 290 := by
  constructor
  · intro r hd hc
    by_cases hw : r.PlayerWins
    · have hm := effMultiplier_eq_specMultiplier r.Difficulty
      have htb := codeTimeBonus_eq_specTimeBonus r.Duration
      have h1 : (1 : ℚ) ≤ specMultiplier r.Difficulty := one_le_specMultiplier _
      have h100 : (100 : ℚ) * 1 ≤ 100 * specMultiplier r.Difficulty :=
        mul_le_mul_of_nonneg_left h1 (by norm_num)
      have h0tb : (0 : ℚ) ≤ specTimeBonus r.Duration := specTimeBonus_nonneg hd
      have hcast : (r.CorrectCount : ℚ) ≤ (r.TotalModels : ℚ) := by exact_mod_cast hc
      have hst : (0 : ℚ) ≤ ((r.TotalModels : ℚ) - (r.CorrectCount : ℚ)) * 20 := by linarith
      have hnn : (0 : ℚ) ≤ 100 * specMultiplier r.Difficulty + specTimeBonus r.Duration +
          ((r.TotalModels : ℚ) - (r.CorrectCount : ℚ)) * 20 := by linarith
      simp only [calculateScore, specScore, hw, Bool.not_true, Bool.false_eq_true, if_false,
        if_true, ite_true, ite_false]
      rw [hm, htb, truncToInt_of_nonneg hnn]
      congr 1
      ring
    · have hw2 : r.PlayerWins = false := by simpa using hw
      simp [calculateScore, specScore, hw2]
  · have hne1 : ("hard" : String) ≠ "easy" := by decide
    have hne2 : ("hard" : String) ≠ "medium" := by decide
    norm_num [calculateScore, exampleHardResult, effMultiplier, difficultyMultiplier,
      codeTimeBonus, truncToInt, hne1, hne2]

/-- Witness for `calculateScore_meets_spec` at the spec's worked example. -/
theorem calculateScore_meets_spec_witness :
    0 ≤ exampleHardResult.Duration ∧
    exampleHardResult.CorrectCount ≤ exampleHardResult.TotalModels ∧
    calculateScore exampleHardResult = specScore exampleHardResult :=
  ⟨by norm_num [exampleHardResult], by norm_num [exampleHardResult],
    calculateScore_meets_spec.1 exampleHardResult (by norm_num [exampleHardResult])
      (by norm_num [exampleHardResult])⟩

/-- Claim C2: the playerWins flag computed at game end is true exactly when
the correct count is strictly between 0 and the solver total. -/
theorem playerWins_iff_strictly_between :
    ∀ correctCount totalModels currentRound numClues : ℕ,
      (decideOutcome correctCount totalModels currentRound numClues).playerWins = true ↔
        0 < correctCount ∧ correctCount < totalModels := by
  intro cc t r k
  simp only [decideOutcome, Bool.and_eq_true, Bool.not_eq_true', decide_eq_true_eq,
    decide_eq_false_iff_not]
  omega

lemma playRoundLoop_le {M : Type} (e : ℕ → M → M) (a : M → Bool) (k : ℕ) :
    ∀ n cur m, k - cur ≤ n → playRoundLoop e a k cur m ≤ k - cur + 1 := by
  intro n
  induction n with
  | zero =>
    intro cur m h
    have hk : k ≤ cur := by omega
    rw [playRoundLoop]
    simp [hk]
  | succ n ih =>
    intro cur m h
    rw [playRoundLoop]
    by_cases hc : (a (e cur m) || decide (k ≤ cur)) = true
    · simp [hc]
    · have hcur : cur < k := by
        simp only [Bool.or_eq_true, decide_eq_true_eq, not_or] at hc
        omega
      have hrec := ih (cur + 1) (e cur m) (by omega)
      simp only [hc, if_false, Bool.false_eq_true]
      omega

/-- Claim C3: the round loop always terminates (it is a total function), at
most `len(clues) + 1` rounds ever run from round 0, and the loop's
termination test is evaluated on the state produced by the round just
played — game over exactly when all solvers are correct afterwards or the
current round index has reached the clue count. -/
theorem playRoundLoop_terminates_within_bound :
    ∀ (M : Type) (evalRound : ℕ → M → M) (allCorrectF : M → Bool) (numClues : ℕ),
      (∀ m, playRoundLoop evalRound allCorrectF numClues 0 m ≤ numClues + 1) ∧
      (∀ cur m, playRoundLoop evalRound allCorrectF numClues cur m =
        if allCorrectF (evalRound cur m) || decide (numClues ≤ cur) then 1
        else 1 + playRoundLoop evalRound allCorrectF numClues (cur + 1) (evalRound cur m)) := by
  intro M e a k
  constructor
  · intro m
    have := playRoundLoop_le e a k k 0 m (by omega)
    simpa using this
  · intro cur m
    conv_lhs => rw [playRoundLoop]

lemma updateStats_fields (s : Stats) (r : GameResult) :
    (updateStats s r).TotalGames = s.TotalGames + 1 ∧
    (updateStats s r).Wins = s.Wins + (if r.PlayerWins then 1 else 0) ∧
    (updateStats s r).Losses = s.Losses + (if r.PlayerWins then 0 else 1) ∧
    (updateStats s r).TotalDuration = s.TotalDuration + r.Duration ∧
    (updateStats s r).WinRate =
      ((updateStats s r).Wins : ℚ) / ((updateStats s r).TotalGames : ℚ) * 100 ∧
    (updateStats s r).AverageDuration =
      (updateStats s r).TotalDuration / ((updateStats s r).TotalGames : ℚ) := by
  by_cases hw : r.PlayerWins <;> simp [updateStats, hw]

lemma foldl_updateStats_counts (rs : List GameResult) :
    ∀ s : Stats,
      (rs.foldl updateStats s).TotalGames = s.TotalGames + rs.length ∧
      (rs.foldl updateStats s).Wins =
        s.Wins + (rs.filter (fun r => r.PlayerWins)).length ∧
      (rs.foldl updateStats s).Losses =
        s.Losses + (rs.filter (fun r => !r.PlayerWins)).length ∧
      (rs.foldl updateStats s).TotalDuration =
        s.TotalDuration + (rs.map GameResult.Duration).sum := by
  induction rs with
  | nil => intro s; simp
  | cons r rs ih =>
    intro s
    obtain ⟨h1, h2, h3, h4, _, _⟩ := updateStats_fields s r
    obtain ⟨i1, i2, i3, i4⟩ := ih (updateStats s r)
    simp only [List.foldl_cons, List.filter_cons, List.map_cons, List.sum_cons, List.length_cons]
    by_cases hw : r.PlayerWins
    · simp only [hw, if_pos, Bool.not_true, if_true] at *
      refine ⟨by omega, ?_, ?_, ?_⟩
      · rw [i2, h2]; simp [hw]; omega
      · rw [i3, h3]; simp [hw]
      · rw [i4, h4]; ring
    · have hw2 : r.PlayerWins = false := by simpa using hw
      refine ⟨by omega, ?_, ?_, ?_⟩
      · rw [i2, h2]; simp [hw2]
      · rw [i3, h3]; simp [hw2]; omega
      · rw [i4, h4]; ring

lemma foldl_updateStats_rates (rs : List GameResult) :
    ∀ s : Stats,
      s.WinRate = (s.Wins : ℚ) / (s.TotalGames : ℚ) * 100 →
      s.AverageDuration = s.TotalDuration / (s.TotalGames : ℚ) →
      (rs.foldl updateStats s).WinRate =
        ((rs.foldl updateStats s).Wins : ℚ) / ((rs.foldl updateStats s).TotalGames : ℚ) * 100 ∧
      (rs.foldl updateStats s).AverageDuration =
        (rs.foldl updateStats s).TotalDuration / ((rs.foldl updateStats s).TotalGames : ℚ) := by
  induction rs with
  | nil => intro s h1 h2; exact ⟨h1, h2⟩
  | cons r rs ih =>
    intro s h1 h2
    obtain ⟨_, _, _, _, h5, h6⟩ := updateStats_fields s r
    simpa using ih (updateStats s r) h5 h6

lemma winsFilterComplement (rs : List GameResult) :
    (rs.filter (fun r => r.PlayerWins)).length +
      (rs.filter (fun r => !r.PlayerWins)).length = rs.length := by
  induction rs with
  | nil => simp
  | cons r rs ihc =>
    by_cases hw : r.PlayerWins
    · simp only [List.filter_cons, hw, Bool.not_true, if_true, if_false, List.length_cons]
      simp
      omega
    · have hw2 : r.PlayerWins = false := by simpa using hw
      simp only [List.filter_cons, hw2, Bool.not_false, List.length_cons]
      simp
      omega

/-- Claim C9: after any sequence of N finalized games with W wins recorded
through `updateStats`, the stats hold totalGames = N, wins = W,
losses = N − W, winRate = 100·W/N, totalDuration the sum of durations and
averageDuration = totalDuration/N, recomputed from the running totals. -/
theorem stats_aggregates_correct :
    ∀ rs : List GameResult,
      (rs.foldl updateStats initStats).TotalGames = rs.length ∧
      (rs.foldl updateStats initStats).Wins =
        (rs.filter (fun r => r.PlayerWins)).length ∧
      (rs.foldl updateStats initStats).Losses =
        rs.length - (rs.filter (fun r => r.PlayerWins)).length ∧
      (rs.foldl updateStats initStats).WinRate =
        100 * ((rs.filter (fun r => r.PlayerWins)).length : ℚ) / (rs.length : ℚ) ∧
      (rs.foldl updateStats initStats).TotalDuration = (rs.map GameResult.Duration).sum ∧
      (rs.foldl updateStats initStats).AverageDuration =
        (rs.map GameResult.Duration).sum / (rs.length : ℚ) := by
  intro rs
  obtain ⟨h1, h2, h3, h4⟩ := foldl_updateStats_counts rs initStats
  have hrates := foldl_updateStats_rates rs initStats (by simp [initStats]) (by simp [initStats])
  have hcomp := winsFilterComplement rs
  rw [show initStats.TotalGames = 0 from rfl, Nat.zero_add] at h1
  rw [show initStats.Wins = 0 from rfl, Nat.zero_add] at h2
  rw [show initStats.Losses = 0 from rfl, Nat.zero_add] at h3
  rw [show initStats.TotalDuration = 0 from rfl, zero_add] at h4
  refine ⟨h1, h2, by omega, ?_, h4, ?_⟩
  · rw [hrates.1, h2, h1]
    ring
  · rw [hrates.2, h4, h1]

lemma trimPrefixStr_sfx (s p : Str) : trimPrefixStr s p <:+ s := by
  unfold trimPrefixStr
  split
  · exact ⟨s.take p.length, List.take_append_drop _ _⟩
  · exact ⟨[], rfl⟩

lemma trimSuffixStr_pfx (s p : Str) : trimSuffixStr s p <+: s := by
  unfold trimSuffixStr
  split
  · exact ⟨s.drop (s.length - p.length), List.take_append_drop _ _⟩
  · exact ⟨[], by simp⟩

lemma midOfParts {a b c : Str} (h1 : a <+: b) (h2 : b <:+ c) : a <:+: c := by
  obtain ⟨t, ht⟩ := h1
  obtain ⟨u, hu⟩ := h2
  exact ⟨u, t, by rw [List.append_assoc, ht, hu]⟩

lemma specNormalize_contained (s : Str) : specNormalize s <:+: trimStr (toLowerStr s) := by
  unfold specNormalize
  refine midOfParts ((trimSuffixStr_pfx _ _).trans (trimSuffixStr_pfx _ _)) ?_
  exact (trimPrefixStr_sfx _ _).trans ((trimPrefixStr_sfx _ _).trans
    ((trimPrefixStr_sfx _ _).trans ((trimPrefixStr_sfx _ _).trans
      ((trimPrefixStr_sfx _ _).trans (trimPrefixStr_sfx _ _)))))

lemma bool_or_rev (x y z : Bool) : ((x || y) || z) = ((z || y) || x) := by
  cases x <;> cases y <;> cases z <;> rfl

lemma checkAnswer_eq_matchesSpec (g a : Str) : checkAnswer g a = matchesSpec g a := by
  unfold checkAnswer matchesSpec specNormalize containsStr
  exact bool_or_rev _ _ _

lemma trimPrefixStr_nil (p : Str) : trimPrefixStr [] p = [] := by
  unfold trimPrefixStr
  split <;> simp

lemma trimSuffixStr_nil (p : Str) : trimSuffixStr [] p = [] := by
  unfold trimSuffixStr
  split <;> simp

/-- Claim C8: the matcher is reflexive — any non-empty answer matched
against itself succeeds, because the candidate normalization only strips a
prefix and a suffix, leaving a substring of the normalized canonical. -/
theorem matches_self : ∀ answer : Str, answer ≠ [] → checkAnswer answer answer = true := by
  intro a _
  rw [checkAnswer_eq_matchesSpec]
  unfold matchesSpec
  simp only [Bool.or_eq_true, decide_eq_true_eq]
  exact Or.inl (Or.inr (specNormalize_contained a))

/-- Witness for `matches_self` at the concrete answer "paris". -/
theorem matches_self_witness :
    ("paris".data ≠ ([] : Str)) ∧ checkAnswer "paris".data "paris".data = true :=
  ⟨by decide, matches_self "paris".data (by decide)⟩

/-- Claim C5: `checkAnswer` computes exactly the spec's normalize-then-compare
relation (lowercase/trim both, strip the six prefixes once each in order,
strip one trailing question mark then one trailing period, succeed iff equal
or substring either way); in particular "The answer is Paris." matches
"paris" and "Tokyo" does not match "Paris". -/
theorem checkAnswer_meets_spec :
    (∀ g a : Str, checkAnswer g a = matchesSpec g a) ∧
    checkAnswer "The answer is Paris.".data "paris".data = true ∧
    checkAnswer "Tokyo".data "Paris".data = false :=
  ⟨checkAnswer_eq_matchesSpec, by decide, by decide⟩

/-- Claim C10: the empty candidate is a substring of every canonical answer,
so `checkAnswer "" canonical` is true for every non-empty canonical, and a
solver attempt that completes without error but with empty text is marked
correct by `applyAttempt`. -/
theorem emptyCandidate_matches :
    ∀ canonical : Str, canonical ≠ [] →
      checkAnswer [] canonical = true ∧
      ∀ (st : ModelState) (cur : ℕ) (t : ℚ),
        (applyAttempt st cur (some []) t canonical).Correct = true := by
  intro c _
  have hmain : checkAnswer [] c = true := by
    rw [checkAnswer_eq_matchesSpec]
    have hn : specNormalize [] = [] := by
      simp [specNormalize, trimStr, toLowerStr, trimPrefixStr_nil, trimSuffixStr_nil]
    simp only [matchesSpec, hn, Bool.or_eq_true, decide_eq_true_eq]
    exact Or.inl (Or.inr ⟨[], trimStr (toLowerStr c), by simp⟩)
  refine ⟨hmain, ?_⟩
  intro st cur t
  simp only [applyAttempt]
  exact hmain

/-- Witness for `emptyCandidate_matches` at the concrete canonical "paris". -/
theorem emptyCandidate_matches_witness :
    ("paris".data ≠ ([] : Str)) ∧ checkAnswer [] "paris".data = true ∧
    (applyAttempt emptyModelState 0 (some []) 1 "paris".data).Correct = true :=
  ⟨by decide, (emptyCandidate_matches "paris".data (by decide)).1,
    (emptyCandidate_matches "paris".data (by decide)).2 emptyModelState 0 1⟩

/-- Claim C6 counterexample: a failed attempt (transport error / timeout,
`streamResult = none`) does append a history entry — the guess history goes
from `[]` to `[""]` — contradicting "histories are left unchanged". -/
theorem failedAttempt_appends_history :
    (applyAttempt emptyModelState 0 none 1 "paris".data).AllGuesses ≠
      emptyModelState.AllGuesses ∧
    (applyAttempt emptyModelState 0 none 1 "paris".data).AllGuesses = [[]] ∧
    (applyAttempt emptyModelState 0 none 1 "paris".data).GuessResults = [false] ∧
    (applyAttempt emptyModelState 0 none 1 "paris".data).ResponseTimes = [1] := by
  refine ⟨?_, ?_, ?_, ?_⟩ <;> simp [applyAttempt, emptyModelState]

/-- Claim C6 amended: every completed attempt — failed or successful —
appends exactly one entry to each of the three history sequences, keeping
their lengths in step; a failure is recorded as an empty guess with
correctness false (so the correctness flag of a dispatched, hence
not-yet-correct, solver stays false). -/
theorem attempt_history_growth :
    ∀ (st : ModelState) (cur : ℕ) (res : Option Str) (t : ℚ) (ans : Str),
      (applyAttempt st cur res t ans).AllGuesses.length = st.AllGuesses.length + 1 ∧
      (applyAttempt st cur res t ans).GuessResults.length = st.GuessResults.length + 1 ∧
      (applyAttempt st cur res t ans).ResponseTimes.length = st.ResponseTimes.length + 1 ∧
      (applyAttempt st cur none t ans).AllGuesses = st.AllGuesses ++ [[]] ∧
      (applyAttempt st cur none t ans).GuessResults = st.GuessResults ++ [false] ∧
      (applyAttempt st cur none t ans).ResponseTimes = st.ResponseTimes ++ [t] ∧
      (applyAttempt st cur none t ans).Correct = false := by
  intro st cur res t ans
  cases res <;> simp [applyAttempt]

/-- Four configured models with distinct names, for the selection claim. -/
def mkModel (n : String) : ModelConfig :=
  { Name := n, Provider := "ollama", Model := "llama2", APIKey := "", Endpoint := "" }

/-- A configuration with more than 3 solvers. -/
def fourModels : List ModelConfig :=
  [mkModel "A", mkModel "B", mkModel "C", mkModel "D"]

/-- Claim C7 counterexample: with 4 (> 3) solvers configured, the session's
solver-state set holds all 4 names — no subset of 3 is selected — and the
first round dispatches to all 4 of them. -/
theorem noRandomSelection :
    3 < fourModels.length ∧
    ((initModelStates fourModels).map Prod.fst) = ["A", "B", "C", "D"] ∧
    dispatchList fourModels (initModelStates fourModels) = fourModels := by
  refine ⟨by decide, by decide, by decide⟩

/-- Claim C7 amended: the session always plays every configured solver — the
state map created at session start is keyed by exactly the configured model
names, a round dispatches exactly to the configured models whose correctness
flag is still false, and writing an existing solver's state never changes
the key set (the solver set is fixed for the session's lifetime). -/
theorem solverSet_is_all_models :
    ∀ models : List ModelConfig,
      ((initModelStates models).map Prod.fst = models.map ModelConfig.Name) ∧
      (∀ states m, m ∈ dispatchList models states ↔
        m ∈ models ∧ (lookupState states m.Name).Correct = false) ∧
      (∀ states name st, states.any (fun p => p.1 == name) = true →
        (setState states name st).map Prod.fst = states.map Prod.fst) := by
  intro models
  refine ⟨?_, ?_, ?_⟩
  · simp [initModelStates, Function.comp]
  · intro states m
    simp [dispatchList, List.mem_filter]
  · intro states name st h
    rw [setState, if_pos h, List.map_map]
    refine List.map_congr_left ?_
    intro p hp
    by_cases hname : p.1 = name
    · simp [hname, Function.comp]
    · simp [hname, Function.comp]

/-- Witness for `solverSet_is_all_models` at the four-model configuration. -/
theorem solverSet_is_all_models_witness :
    ((initModelStates fourModels).map Prod.fst = fourModels.map ModelConfig.Name) ∧
    ((setState (initModelStates fourModels) "A" emptyModelState).map Prod.fst =
      (initModelStates fourModels).map Prod.fst) :=
  ⟨(solverSet_is_all_models fourModels).1,
    (solverSet_is_all_models fourModels).2.2 (initModelStates fourModels) "A"
      emptyModelState (by decide)⟩

lemma swapEntries_length (l : List LeaderboardEntry) (i j : ℕ) :
    (swapEntries l i j).length = l.length := by
  unfold swapEntries
  split <;> simp

lemma innerStep_length (l : List LeaderboardEntry) (i j : ℕ) :
    (innerStep l i j).length = l.length := by
  unfold innerStep
  split
  · exact swapEntries_length l i j
  · rfl

lemma innerLoop_length (i : ℕ) :
    ∀ (js : List ℕ) (l : List LeaderboardEntry), (innerLoop i l js).length = l.length := by
  intro js
  induction js with
  | nil => intro l; rfl
  | cons j js ih =>
    intro l
    simp only [innerLoop]
    rw [ih, innerStep_length]

lemma swapEntries_get_other {l : List LeaderboardEntry} {i j k : ℕ}
    (hk1 : k ≠ i) (hk2 : k ≠ j) : (swapEntries l i j)[k]? = l[k]? := by
  unfold swapEntries
  split
  · rw [List.getElem?_set_ne (Ne.symm hk2), List.getElem?_set_ne (Ne.symm hk1)]
  · rfl

lemma swapEntries_sc_i {l : List LeaderboardEntry} {i j : ℕ} (hij : i ≠ j)
    (hi : i < l.length) (hj : j < l.length) : sc (swapEntries l i j) i = sc l j := by
  obtain ⟨vi, hvi⟩ : ∃ v, l[i]? = some v := ⟨_, List.getElem?_eq_getElem hi⟩
  obtain ⟨vj, hvj⟩ : ∃ v, l[j]? = some v := ⟨_, List.getElem?_eq_getElem hj⟩
  unfold sc swapEntries
  rw [hvi, hvj]
  simp only
  rw [List.getElem?_set_ne (Ne.symm hij),
    List.getElem?_set_eq_of_lt vj (by simpa using hi)]

lemma swapEntries_sc_j {l : List LeaderboardEntry} {i j : ℕ} (hij : i ≠ j)
    (hi : i < l.length) (hj : j < l.length) : sc (swapEntries l i j) j = sc l i := by
  obtain ⟨vi, hvi⟩ : ∃ v, l[i]? = some v := ⟨_, List.getElem?_eq_getElem hi⟩
  obtain ⟨vj, hvj⟩ : ∃ v, l[j]? = some v := ⟨_, List.getElem?_eq_getElem hj⟩
  unfold sc swapEntries
  rw [hvi, hvj]
  simp only
  rw [List.getElem?_set_eq_of_lt vi (by simpa using hj)]

lemma innerStep_get_other {l : List LeaderboardEntry} {i j k : ℕ}
    (hk1 : k ≠ i) (hk2 : k ≠ j) : (innerStep l i j)[k]? = l[k]? := by
  unfold innerStep
  split
  · exact swapEntries_get_other hk1 hk2
  · rfl

lemma innerStep_source {l : List LeaderboardEntry} {i j q : ℕ}
    (hij : i < j) (hj : j < l.length) (hq1 : i ≤ q) (hq2 : q < l.length) :
    ∃ m, i ≤ m ∧ m < l.length ∧ sc (innerStep l i j) q = sc l m := by
  have hi : i < l.length := by omega
  by_cases hqi : q = i
  · subst hqi
    unfold innerStep
    split
    · exact ⟨j, by omega, hj, swapEntries_sc_i (by omega) hi hj⟩
    · exact ⟨q, hq1, hq2, rfl⟩
  · by_cases hqj : q = j
    · subst hqj
      unfold innerStep
      split
      · exact ⟨i, le_refl i, hi, swapEntries_sc_j (by omega) hi hj⟩
      · exact ⟨q, hq1, hq2, rfl⟩
    · refine ⟨q, hq1, hq2, ?_⟩
      unfold sc
      rw [innerStep_get_other hqi hqj]

lemma innerLoop_source (i n : ℕ) :
    ∀ (js : List ℕ) (l : List LeaderboardEntry), l.length = n →
      (∀ j ∈ js, i < j ∧ j < n) →
      ∀ q, i ≤ q → q < n →
        ∃ m, i ≤ m ∧ m < n ∧ sc (innerLoop i l js) q = sc l m := by
  intro js
  induction js with
  | nil => intro l _ _ q hq1 hq2; exact ⟨q, hq1, hq2, rfl⟩
  | cons j js ih =>
    intro l hl hjs q hq1 hq2
    have hj := hjs j (List.mem_cons_self j js)
    simp only [innerLoop]
    obtain ⟨m1, hm1a, hm1b, hm1c⟩ := ih (innerStep l i j)
      (by rw [innerStep_length]; exact hl)
      (fun j2 hj2 => hjs j2 (List.mem_cons_of_mem _ hj2)) q hq1 hq2
    obtain ⟨m, hma, hmb, hmc⟩ := innerStep_source hj.1
      (by rw [hl]; exact hj.2) hm1a (by rw [hl]; exact hm1b)
    exact ⟨m, hma, by rw [← hl]; exact hmb, by rw [hm1c, hmc]⟩

lemma innerLoop_sc_i_mono (i n : ℕ) :
    ∀ (js : List ℕ) (l : List LeaderboardEntry), l.length = n →
      (∀ j ∈ js, i < j ∧ j < n) →
      sc l i ≤ sc (innerLoop i l js) i := by
  intro js
  induction js with
  | nil => intro l _ _; exact le_refl _
  | cons j js ih =>
    intro l hl hjs
    have hj := hjs j (List.mem_cons_self j js)
    have hi : i < l.length := by omega
    have hjl : j < l.length := by omega
    have h1 : sc l i ≤ sc (innerStep l i j) i := by
      unfold innerStep
      split
      · next hlt => rw [swapEntries_sc_i (by omega) hi hjl]; exact le_of_lt hlt
      · exact le_refl _
    simp only [innerLoop]
    exact h1.trans (ih (innerStep l i j) (by rw [innerStep_length]; exact hl)
      (fun j2 hj2 => hjs j2 (List.mem_cons_of_mem _ hj2)))

lemma innerLoop_untouched (i : ℕ) :
    ∀ (js : List ℕ) (l : List LeaderboardEntry) (k : ℕ), k ≠ i → k ∉ js →
      (innerLoop i l js)[k]? = l[k]? := by
  intro js
  induction js with
  | nil => intro l k _ _; rfl
  | cons j js ih =>
    intro l k hk1 hk2
    simp only [innerLoop]
    rw [ih (innerStep l i j) k hk1 (fun h => hk2 (List.mem_cons_of_mem _ h)),
      innerStep_get_other hk1 (fun h => hk2 (h ▸ List.mem_cons_self j js))]

lemma innerStep_sc_le {l : List LeaderboardEntry} {i j : ℕ}
    (hij : i < j) (hi : i < l.length) (hj : j < l.length) :
    sc (innerStep l i j) j ≤ sc (innerStep l i j) i := by
  unfold innerStep
  split
  · next h =>
    rw [swapEntries_sc_i (by omega) hi hj, swapEntries_sc_j (by omega) hi hj]
    exact le_of_lt h
  · next h => exact le_of_not_lt h

lemma innerLoop_max (i n : ℕ) :
    ∀ (js : List ℕ) (l : List LeaderboardEntry), l.length = n →
      List.Pairwise (· < ·) js → (∀ j ∈ js, i < j ∧ j < n) →
      ∀ j2 ∈ js, sc (innerLoop i l js) j2 ≤ sc (innerLoop i l js) i := by
  intro js
  induction js with
  | nil => intro l _ _ _ j2 hj2; exact absurd hj2 (List.not_mem_nil j2)
  | cons j js ih =>
    intro l hl hpw hjs j2 hj2
    have hj := hjs j (List.mem_cons_self j js)
    have hi : i < l.length := by omega
    have hjl : j < l.length := by omega
    have hlen2 : (innerStep l i j).length = n := by rw [innerStep_length]; exact hl
    have htail : ∀ j3 ∈ js, i < j3 ∧ j3 < n :=
      fun j3 hj3 => hjs j3 (List.mem_cons_of_mem _ hj3)
    simp only [innerLoop]
    rcases List.mem_cons.1 hj2 with rfl | hmem
    · have h1 : sc (innerStep l i j2) j2 ≤ sc (innerStep l i j2) i :=
        innerStep_sc_le hj.1 hi hjl
      have hnotin : j2 ∉ js := by
        intro hjin
        have := (List.pairwise_cons.1 hpw).1 j2 hjin
        omega
      have hscj : sc (innerLoop i (innerStep l i j2) js) j2 = sc (innerStep l i j2) j2 := by
        unfold sc
        rw [innerLoop_untouched i js (innerStep l i j2) j2 (by omega) hnotin]
      have hmono : sc (innerStep l i j2) i ≤ sc (innerLoop i (innerStep l i j2) js) i :=
        innerLoop_sc_i_mono i n js (innerStep l i j2) hlen2 htail
      rw [hscj]
      exact h1.trans hmono
    · exact ih (innerStep l i j) hlen2 (List.pairwise_cons.1 hpw).2 htail j2 hmem

/-- The outer-loop invariant: every position before `i` dominates everything
after it (so the first `i` positions are sorted and hold the largest scores). -/
def ScInv (n i : ℕ) (l : List LeaderboardEntry) : Prop :=
  ∀ p q, p < i → p < q → q < n → sc l q ≤ sc l p

lemma outer_step (n i : ℕ) (l : List LeaderboardEntry) (hl : l.length = n)
    (hinv : ScInv n i l) :
    ScInv n (i + 1) (innerLoop i l (List.range' (i + 1) (n - (i + 1)))) := by
  have hjs_mem : ∀ j ∈ List.range' (i + 1) (n - (i + 1)), i < j ∧ j < n := by
    intro j hj
    rw [List.mem_range'_1] at hj
    omega
  have hpw : List.Pairwise (· < ·) (List.range' (i + 1) (n - (i + 1))) :=
    List.pairwise_lt_range' _ _ 1 (by omega)
  intro p q hp hpq hq
  rcases Nat.lt_or_ge p i with hpi | hpi
  · have hscp : sc (innerLoop i l (List.range' (i + 1) (n - (i + 1)))) p = sc l p := by
      unfold sc
      rw [innerLoop_untouched i _ l p (by omega) ?_]
      intro hin
      have := hjs_mem p hin
      omega
    rcases Nat.lt_or_ge q i with hqi | hqi
    · have hscq : sc (innerLoop i l (List.range' (i + 1) (n - (i + 1)))) q = sc l q := by
        unfold sc
        rw [innerLoop_untouched i _ l q (by omega) ?_]
        intro hin
        have := hjs_mem q hin
        omega
      rw [hscp, hscq]
      exact hinv p q hpi hpq hq
    · obtain ⟨m, hm1, hm2, hm3⟩ := innerLoop_source i n _ l hl hjs_mem q hqi hq
      rw [hscp, hm3]
      exact hinv p m hpi (by omega) hm2
  · have hpi2 : p = i := by omega
    subst hpi2
    have hqjs : q ∈ List.range' (p + 1) (n - (p + 1)) := by
      rw [List.mem_range'_1]
      omega
    exact innerLoop_max p n _ l hl hpw hjs_mem q hqjs

lemma outer_run (n : ℕ) :
    ∀ (k i : ℕ) (l : List LeaderboardEntry), l.length = n → ScInv n i l →
      ScInv n (i + k) (outerLoop n l (List.range' i k)) ∧
      (outerLoop n l (List.range' i k)).length = n := by
  intro k
  induction k with
  | zero =>
    intro i l hl hinv
    exact ⟨hinv, hl⟩
  | succ k ih =>
    intro i l hl hinv
    rw [List.range'_succ]
    simp only [outerLoop]
    have hlen : (innerLoop i l (List.range' (i + 1) (n - (i + 1)))).length = n := by
      rw [innerLoop_length]
      exact hl
    have hres := ih (i + 1) _ hlen (outer_step n i l hl hinv)
    refine ⟨?_, hres.2⟩
    rw [show i + (k + 1) = (i + 1) + k from by omega]
    exact hres.1

lemma sortLeaderboard_sortedDesc (l : List LeaderboardEntry) :
    SortedDesc (sortLeaderboard l) := by
  unfold sortLeaderboard
  rw [List.range_eq_range']
  obtain ⟨hinv, hlen⟩ := outer_run l.length (l.length - 1) 0 l rfl
    (fun p q hp _ _ => absurd hp (Nat.not_lt_zero p))
  intro p q hpq hq
  rw [hlen] at hq
  exact hinv p q (by omega) hpq hq

lemma sortedDesc_take (l : List LeaderboardEntry) (k : ℕ) (h : SortedDesc l) :
    SortedDesc (l.take k) := by
  intro p q hpq hq
  rw [List.length_take] at hq
  have hq2 : q < k := by omega
  have hql : q < l.length := by omega
  have hscq : sc (l.take k) q = sc l q := by
    unfold sc
    rw [List.getElem?_take_of_lt hq2]
  have hscp : sc (l.take k) p = sc l p := by
    unfold sc
    rw [List.getElem?_take_of_lt (by omega)]
  rw [hscq, hscp]
  exact h p q hpq hql

lemma addToLeaderboard_props (lb : List LeaderboardEntry) (e : LeaderboardEntry) :
    SortedDesc (addToLeaderboard lb e) ∧ (addToLeaderboard lb e).length ≤ 100 := by
  constructor
  · exact sortedDesc_take _ _ (sortLeaderboard_sortedDesc _)
  · rw [addToLeaderboard, List.length_take]
    omega

/-- Claim C4 counterexample: inserting entries with scores 5, 3, 3, 4 (in
that order, the two 3-scored entries distinguished by riddle text) yields a
leaderboard in which the later-inserted 3-scored entry precedes the earlier
one — the exchange sort is not stable, refuting the stable-tie-order part
of the claim. -/
theorem tieOrder_not_stable :
    List.foldl addToLeaderboard []
      [{ Riddle := "R5", Difficulty := "easy", PlayerWon := true, CorrectCount := 1,
         TotalModels := 3, Duration := 0, Timestamp := 0, Score := 5 },
       { Riddle := "RA", Difficulty := "easy", PlayerWon := true, CorrectCount := 1,
         TotalModels := 3, Duration := 0, Timestamp := 0, Score := 3 },
       { Riddle := "RB", Difficulty := "easy", PlayerWon := true, CorrectCount := 1,
         TotalModels := 3, Duration := 0, Timestamp := 0, Score := 3 },
       { Riddle := "R4", Difficulty := "easy", PlayerWon := true, CorrectCount := 1,
         TotalModels := 3, Duration := 0, Timestamp := 0, Score := 4 }] =
      [{ Riddle := "R5", Difficulty := "easy", PlayerWon := true, CorrectCount := 1,
         TotalModels := 3, Duration := 0, Timestamp := 0, Score := 5 },
       { Riddle := "R4", Difficulty := "easy", PlayerWon := true, CorrectCount := 1,
         TotalModels := 3, Duration := 0, Timestamp := 0, Score := 4 },
       { Riddle := "RB", Difficulty := "easy", PlayerWon := true, CorrectCount := 1,
         TotalModels := 3, Duration := 0, Timestamp := 0, Score := 3 },
       { Riddle := "RA", Difficulty := "easy", PlayerWon := true, CorrectCount := 1,
         TotalModels := 3, Duration := 0, Timestamp := 0, Score := 3 }] := by
  decide

/-- Claim C4 amended: after any sequence of inserts the leaderboard never
exceeds 100 entries and is sorted non-increasing by score; the stable tie
order claimed by the spec does not hold (see the counterexample). -/
theorem leaderboard_sorted_and_capped :
    ∀ es : List LeaderboardEntry,
      SortedDesc (es.foldl addToLeaderboard []) ∧
      (es.foldl addToLeaderboard []).length ≤ 100 := by
  have main : ∀ (es : List LeaderboardEntry) (b : List LeaderboardEntry),
      SortedDesc b → b.length ≤ 100 →
      SortedDesc (es.foldl addToLeaderboard b) ∧
        (es.foldl addToLeaderboard b).length ≤ 100 := by
    intro es
    induction es with
    | nil => intro b h1 h2; exact ⟨h1, h2⟩
    | cons e es ih =>
      intro b h1 h2
      simp only [List.foldl_cons]
      exact ih (addToLeaderboard b e) (addToLeaderboard_props b e).1
        (addToLeaderboard_props b e).2
  intro es
  exact main es [] (fun p q hpq hq => absurd hq (by simp)) (by simp)
